import Mathlib

/-!
Verification of the rust-ll1engine repository (an LL(1) table-driven parsing
engine) against its natural-language specification.

The embedding follows src/parser.rs (tokens, source locations, the AST model,
the LL(1) parser construction and the table-driven parse loop) and
src/error.rs.  The `gram` module (grammar data model and the FIRST/FOLLOW/
PREDICT set computation) is not part of the visible sources; the definitions
for it are modelled from the specification and are marked as such in their
doc comments.

Machine integers (`usize`) are modelled as `Nat`; Rust's `Result` as
`Except`; a Rust panic or a debug-mode arithmetic underflow is modelled by an
`Option` result being `none` (or by a dedicated `panic` outcome for the
parser entry point).
-/

/-! ## Source file structure (src/parser.rs, `SrcFileInfo`) -/

/-- Source location, from `SrcLoc` in src/parser.rs: a line/column pair. -/
structure SrcLoc where
  ln : Nat
  col : Nat
deriving DecidableEq, Repr

/-- Worker for `build_lines`: walks the characters keeping the running total
of characters seen (`total`) and the accumulated line-start table (`lines`),
pushing `total` after each newline.  Mirrors the `for` loop of
`SrcFileInfo::build_lines` (src/parser.rs:99-112). -/
def buildLinesAux : List Char → Nat → List Nat → List Nat
  | [], _, lines => lines
  | c :: cs, total, lines =>
      buildLinesAux cs (total + 1)
        (if c = '\n' then lines ++ [total + 1] else lines)

/-- `SrcFileInfo::build_lines` (src/parser.rs:99-112): the cumulative
line-start offset table of a source string, starting from `[0]`.  The source
string is modelled as its character sequence (`srcstr.chars()`). -/
def build_lines (srcstr : List Char) : List Nat :=
  buildLinesAux srcstr 0 [0]

/-- Result of `Vec::binary_search`: `found i` is Rust's `Ok(i)` (the offset
is present at index `i`), `notFound i` is Rust's `Err(i)` (the index where
the offset would be inserted to keep the table sorted). -/
inductive SearchRes where
  | found (i : Nat)
  | notFound (i : Nat)
deriving DecidableEq, Repr

/-- Worker for `bsearch`, carrying the count `k` of elements already passed.
For the strictly sorted tables produced by `build_lines`, this computes
exactly the (deterministic) result of Rust's `Vec::binary_search`: the index
of the element when present, otherwise the insertion index. -/
def bsearchAux : List Nat → Nat → Nat → SearchRes
  | [], _, k => .notFound k
  | y :: ys, x, k =>
      if x = y then .found k
      else if x < y then .notFound k
      else bsearchAux ys x (k + 1)

/-- Model of `self.lines.binary_search(&offset)` in
`SrcFileInfo::offset2srcloc` (src/parser.rs:123).  On a strictly sorted
list this agrees with Rust's `Vec::binary_search`. -/
def bsearch (l : List Nat) (x : Nat) : SearchRes :=
  bsearchAux l x 0

/-- `SrcFileInfo` (src/parser.rs:75-84) without the `path` field, which only
feeds diagnostics and file IO and plays no role in the claims. -/
structure SrcFileInfo where
  lines : List Nat
  srcstr : List Char

/-- The pure core of `SrcFileInfo::new` (src/parser.rs:87-97): build the
line table from the already-read source string (the file-system read is out
of scope). -/
def SrcFileInfo.fromStr (s : List Char) : SrcFileInfo :=
  ⟨build_lines s, s⟩

/-- `SrcFileInfo::offset2srcloc` (src/parser.rs:122-137).  The `Ok(found)`
branch reports `(found, 0)`.  The `Err(idx)` branch computes
`offset - lines[idx - 1]`; the `none` results model the panics the Rust code
could in principle hit there: `idx = 0` (usize underflow in `idx - 1`
leading to an out-of-bounds index), an out-of-bounds `lines[idx - 1]`, and a
debug-mode underflow of the column subtraction. -/
def SrcFileInfo.offset2srcloc (f : SrcFileInfo) (offset : Nat) : Option SrcLoc :=
  match bsearch f.lines offset with
  | .found found => some ⟨found, 0⟩
  | .notFound idx =>
      if idx = 0 then none
      else
        match f.lines[idx - 1]? with
        | some v => if v ≤ offset then some ⟨idx, offset - v⟩ else none
        | none => none

/-! ### Lemmas about `build_lines` and the binary search -/

/-- `buildLinesAux` only ever appends to the accumulated table. -/
theorem buildLinesAux_append (cs : List Char) :
    ∀ total lines, ∃ suf, buildLinesAux cs total lines = lines ++ suf := by
  induction cs with
  | nil => intro total lines; exact ⟨[], (List.append_nil lines).symm⟩
  | cons c cs ih =>
      intro total lines
      simp only [buildLinesAux]
      by_cases hc : c = '\n'
      · rw [if_pos hc]
        obtain ⟨suf, hsuf⟩ := ih (total + 1) (lines ++ [total + 1])
        exact ⟨[total + 1] ++ suf, by rw [hsuf, List.append_assoc]⟩
      · rw [if_neg hc]
        exact ih (total + 1) lines

/-- The first entry of the line table is always 0. -/
theorem build_lines_head (s : List Char) : (build_lines s).head? = some 0 := by
  obtain ⟨suf, hsuf⟩ := buildLinesAux_append s 0 [0]
  unfold build_lines
  rw [hsuf]
  rfl

/-- The accumulated line table stays strictly sorted with all entries
bounded by the running total. -/
theorem buildLinesAux_pairwise (cs : List Char) :
    ∀ total lines, List.Pairwise (· < ·) lines → (∀ x ∈ lines, x ≤ total) →
      List.Pairwise (· < ·) (buildLinesAux cs total lines) := by
  induction cs with
  | nil => intro total lines hp _; exact hp
  | cons c cs ih =>
      intro total lines hp hb
      simp only [buildLinesAux]
      by_cases hc : c = '\n'
      · rw [if_pos hc]
        refine ih (total + 1) _ ?_ ?_
        · refine List.pairwise_append.mpr ⟨hp, List.pairwise_singleton _ _, ?_⟩
          intro x hx y hy
          rw [List.mem_singleton] at hy
          subst hy
          exact Nat.lt_succ_of_le (hb x hx)
        · intro x hx
          rcases List.mem_append.mp hx with h | h
          · exact Nat.le_succ_of_le (hb x h)
          · rw [List.mem_singleton] at h; omega
      · rw [if_neg hc]
        refine ih (total + 1) _ hp (fun x hx => Nat.le_succ_of_le (hb x hx))

/-- The line table is strictly increasing. -/
theorem build_lines_pairwise (s : List Char) :
    List.Pairwise (· < ·) (build_lines s) := by
  refine buildLinesAux_pairwise s 0 [0] (List.pairwise_singleton _ _) ?_
  intro x hx
  rw [List.mem_singleton] at hx
  omega

/-- What a `notFound` result of the search worker implies: the reported
insertion index is at least the start counter, and unless it equals the
start counter, the element just before the insertion point is in the list
and is strictly below the key. -/
theorem bsearchAux_notFound (l : List Nat) :
    ∀ x k j, bsearchAux l x k = .notFound j →
      k ≤ j ∧ (j = k ∨ ∃ v, l[j - k - 1]? = some v ∧ v < x) := by
  induction l with
  | nil =>
      intro x k j h
      simp only [bsearchAux] at h
      cases h
      exact ⟨Nat.le_refl _, Or.inl rfl⟩
  | cons y ys ih =>
      intro x k j h
      simp only [bsearchAux] at h
      by_cases h1 : x = y
      · rw [if_pos h1] at h; cases h
      · rw [if_neg h1] at h
        by_cases h2 : x < y
        · rw [if_pos h2] at h
          cases h
          exact ⟨Nat.le_refl _, Or.inl rfl⟩
        · rw [if_neg h2] at h
          obtain ⟨hk, hrest⟩ := ih x (k + 1) j h
          have hyx : y < x := by omega
          refine ⟨by omega, ?_⟩
          rcases hrest with h3 | ⟨v, hv, hvx⟩
          · subst h3
            have h0 : k + 1 - k - 1 = 0 := by omega
            refine Or.inr ⟨y, ?_, hyx⟩
            rw [h0]
            simp
          · by_cases hj : j = k + 1
            · subst hj
              have h0 : k + 1 - k - 1 = 0 := by omega
              refine Or.inr ⟨y, ?_, hyx⟩
              rw [h0]
              simp
            · refine Or.inr ⟨v, ?_, hvx⟩
              have hidx : j - k - 1 = (j - (k + 1) - 1) + 1 := by omega
              rw [hidx]
              simpa using hv

/-- A found result locates the key in the list (relative to the counter). -/
theorem bsearchAux_found_of_mem (l : List Nat) :
    ∀ x k idx, List.Pairwise (· < ·) l → l[idx]? = some x →
      bsearchAux l x k = .found (k + idx) := by
  induction l with
  | nil => intro x k idx _ h; simp at h
  | cons y ys ih =>
      intro x k idx hp h
      match idx with
      | 0 =>
          simp only [List.getElem?_cons_zero] at h
          cases h
          simp [bsearchAux]
      | n + 1 =>
          simp only [List.getElem?_cons_succ] at h
          have hy : y < x := by
            rcases List.pairwise_cons.mp hp with ⟨hlt, _⟩
            obtain ⟨hn, he⟩ := List.getElem?_eq_some.mp h
            exact he ▸ hlt _ (List.getElem_mem hn)
          simp only [bsearchAux]
          rw [if_neg (by omega), if_neg (by omega)]
          have := ih x (k + 1) n (List.pairwise_cons.mp hp).2 h
          rw [this]
          congr 1
          omega

/-! ## Grammar data model

The grammar data model lives in the repository's `gram` module, which is not
among the visible sources; src/parser.rs constrains it (constructors
`GramSym::Terminal`, `GramSymStr::Str`/`Epsilon`, fields `prod.rhstr`,
methods `is_terminal`, `start_sym`, `name`, `first_sets`, `follow_sets`,
`prediction_sets`, `predict`) and the specification describes it in §3. -/

/-- Modelled from the spec: grammar symbol (gram module missing from src/):
a tagged value, `Terminal(name)` or `NonTerminal(name)`. -/
inductive GramSym where
  | Terminal (name : String)
  | NonTerminal (name : String)
deriving DecidableEq, Repr

/-- The tag check used by the parse loop (`right_sym.is_terminal()`). -/
def GramSym.is_terminal : GramSym → Bool
  | .Terminal _ => true
  | .NonTerminal _ => false

/-- The bare name of a grammar symbol. -/
def GramSym.name : GramSym → String
  | .Terminal s => s
  | .NonTerminal s => s

/-- Modelled from the spec: symbol string (gram module missing from src/):
a production right-hand side, `Epsilon` or an ordered symbol sequence. -/
inductive GramSymStr where
  | Str (syms : List GramSym)
  | Epsilon
deriving DecidableEq, Repr

/-- Modelled from the spec: production (gram module missing from src/):
`(lhs, rhs)`; the rhs field is named `rhstr` as in src/parser.rs. -/
structure GramProd where
  lfsym : GramSym
  rhstr : GramSymStr
deriving DecidableEq, Repr

/-- Modelled from the spec: grammar (gram module missing from src/):
a name and an ordered sequence of productions. -/
structure Gram where
  name : String
  prods : List GramProd
deriving DecidableEq, Repr

/-- Modelled from the spec: `Gram::start_sym` returns an `Option` (it is
unwrapped in `LL1Parser::parse`); the designated start symbol is the lhs of
the first production of the ordered production sequence. -/
def Gram.start_sym (g : Gram) : Option GramSym :=
  g.prods.head?.map (·.lfsym)

/-- Modelled from the spec: a FIRST-set element is a terminal or the
epsilon marker (constructor `FstSetSym::Sym` appears in src/parser.rs). -/
inductive FstSetSym where
  | Sym (s : String)
  | Epsilon
deriving DecidableEq, Repr

/-- Modelled from the spec: a FOLLOW-set element is a terminal or the
end-of-input marker (constructor `FollSetSym::Sym` appears in
src/parser.rs). -/
inductive FollSetSym where
  | Sym (s : String)
  | EndMarker
deriving DecidableEq, Repr

/-- A prediction-set lookahead: a terminal or the end-of-input marker
(constructors `PredSetSym::Sym` and `PredSetSym::EndMarker` appear in
src/parser.rs). -/
inductive PredSetSym where
  | Sym (s : String)
  | EndMarker
deriving DecidableEq, Repr

/-- Modelled from the spec: the prediction table, a mapping from
`(nonterminal, lookahead)` keys to productions, represented as an
association list in registration order. -/
abbrev PredSet := List ((GramSym × PredSetSym) × GramProd)

/-- `PredSet::predict` as used through `LL1Parser::predict_prod`
(src/parser.rs:359-366): look up the unique production for
`(lfsym, lookahead)`, or none. -/
def PredSet.predict (ps : PredSet) (lfsym : GramSym) (la : PredSetSym) :
    Option GramProd :=
  (ps.find? (fun e => decide (e.1.1 = lfsym ∧ e.1.2 = la))).map (·.2)

/-! ## Set computation engine (modelled from the spec, §4.1)

The FIRST/FOLLOW/PREDICT computation lives in the missing `gram` module.
All definitions in this section are modelled from the specification's
fixed-point descriptions. -/

/-- Insert an element into a list-as-set if not already present. -/
def addUniq [DecidableEq α] (l : List α) (x : α) : List α :=
  if x ∈ l then l else l ++ [x]

/-- Union of two lists-as-sets, keeping the left order. -/
def unionUniq [DecidableEq α] (l : List α) (xs : List α) : List α :=
  xs.foldl addUniq l

/-- Look up a named set (FIRST or FOLLOW) in an association list; a missing
entry denotes the empty set. -/
def lookupSet (sets : List (String × List α)) (nm : String) : List α :=
  match sets.find? (fun e => e.1 == nm) with
  | some e => e.2
  | none => []

/-- Add elements to a named set of an association list, creating the entry
when absent. -/
def updateSet [DecidableEq α] (sets : List (String × List α)) (nm : String)
    (xs : List α) : List (String × List α) :=
  match sets.find? (fun e => e.1 == nm) with
  | some _ => sets.map (fun e => if e.1 == nm then (e.1, unionUniq e.2 xs) else e)
  | none => sets ++ [(nm, unionUniq [] xs)]

/-- Named FIRST sets of the nonterminals. -/
abbrev FstSets := List (String × List FstSetSym)

/-- Named FOLLOW sets of the nonterminals. -/
abbrev FollSets := List (String × List FollSetSym)

/-- Modelled from the spec: FIRST of a symbol string, given the current
FIRST sets of the nonterminals.  A terminal contributes itself and stops;
a nonterminal contributes its FIRST set minus epsilon, continuing to the
next symbol only when that set contains the epsilon marker; walking off the
end contributes the epsilon marker. -/
def firstOfStr (fsts : FstSets) : List GramSym → List FstSetSym
  | [] => [FstSetSym.Epsilon]
  | sym :: rest =>
      match sym with
      | .Terminal t => [FstSetSym.Sym t]
      | .NonTerminal n =>
          let fn := lookupSet fsts n
          let noEps := fn.filter (fun x => decide (x ≠ FstSetSym.Epsilon))
          if FstSetSym.Epsilon ∈ fn then unionUniq noEps (firstOfStr fsts rest)
          else noEps

/-- One pass of the FIRST fixed point over all productions. -/
def firstPass (g : Gram) (fsts : FstSets) : FstSets :=
  g.prods.foldl
    (fun acc prod =>
      match prod.lfsym with
      | .NonTerminal n =>
          let contrib :=
            match prod.rhstr with
            | .Epsilon => [FstSetSym.Epsilon]
            | .Str syms => firstOfStr acc syms
          updateSet acc n contrib
      | .Terminal _ => acc)
    fsts

/-- Iterate a monotone pass until it stops changing, with fuel. -/
def iterFix [DecidableEq α] (f : α → α) : Nat → α → α
  | 0, a => a
  | n + 1, a => let b := f a; if b = a then a else iterFix f n b

/-- A fuel bound exceeding the number of possible set insertions: the
fixed-point iterations converge well before it. -/
def Gram.fuelBound (g : Gram) : Nat :=
  let u := g.prods.foldl
    (fun acc p =>
      acc + 1 + (match p.rhstr with | .Str l => l.length | .Epsilon => 0)) 0
  (u + 2) * (u + 2) + 1

/-- Modelled from the spec: `Gram::first_sets`, the FIRST sets computed by
iterating production passes to a fixed point. -/
def Gram.first_sets (g : Gram) : FstSets :=
  iterFix (firstPass g) g.fuelBound []

/-- Scan one production body `B → ... A β`, adding `FIRST(β) \ epsilon` to
`FOLLOW(A)` for every nonterminal occurrence `A`, plus `FOLLOW(B)` when `β`
is nullable.  Modelled from the spec. -/
def follScan (fsts : FstSets) (bName : String) :
    List GramSym → FollSets → FollSets
  | [], acc => acc
  | x :: rest, acc =>
      let acc' :=
        match x with
        | .NonTerminal a =>
            let fstB := firstOfStr fsts rest
            let terms := fstB.foldl
              (fun l f => match f with
                | FstSetSym.Sym t => addUniq l (FollSetSym.Sym t)
                | FstSetSym.Epsilon => l) []
            let acc1 := updateSet acc a terms
            if FstSetSym.Epsilon ∈ fstB then
              updateSet acc1 a (lookupSet acc1 bName)
            else acc1
        | .Terminal _ => acc
      follScan fsts bName rest acc'

/-- One pass of the FOLLOW fixed point over all productions. -/
def followPass (g : Gram) (fsts : FstSets) (folls : FollSets) : FollSets :=
  g.prods.foldl
    (fun acc prod =>
      match prod.rhstr with
      | .Str syms => follScan fsts prod.lfsym.name syms acc
      | .Epsilon => acc)
    folls

/-- Modelled from the spec: `Gram::follow_sets`, the FOLLOW sets computed
by fixed-point iteration from the seed `FOLLOW(start) = {EndMarker}`, using
the already-closed FIRST sets. -/
def Gram.follow_sets (g : Gram) (fsts : FstSets) : FollSets :=
  let seed : FollSets :=
    match g.start_sym with
    | some s => [(s.name, [FollSetSym.EndMarker])]
    | none => []
  iterFix (followPass g fsts) g.fuelBound seed

/-- Reading a FOLLOW element as a prediction lookahead. -/
def follToPred : FollSetSym → PredSetSym
  | .Sym s => .Sym s
  | .EndMarker => .EndMarker

/-- Modelled from the spec: the prediction keys of one production `A → α`:
every terminal of `FIRST(α) \ epsilon`, plus all of `FOLLOW(A)` when
`FIRST(α)` contains the epsilon marker (for `α = Epsilon`,
`FIRST(α) = {epsilon}`). -/
def prodPredSyms (fsts : FstSets) (folls : FollSets) (prod : GramProd) :
    List PredSetSym :=
  match prod.rhstr with
  | .Epsilon => (lookupSet folls prod.lfsym.name).map follToPred
  | .Str syms =>
      let L := firstOfStr fsts syms
      let termKeys := L.foldl
        (fun acc f => match f with
          | FstSetSym.Sym t => addUniq acc (PredSetSym.Sym t)
          | FstSetSym.Epsilon => acc) []
      if FstSetSym.Epsilon ∈ L then
        unionUniq termKeys ((lookupSet folls prod.lfsym.name).map follToPred)
      else termKeys

/-- Modelled from the spec: register one production under its keys,
failing with a diagnostic naming the ambiguous rule when a key already
maps to a different production. -/
def registerKeys (prod : GramProd) :
    List PredSetSym → PredSet → Except String PredSet
  | [], acc => .ok acc
  | k :: ks, acc =>
      match acc.predict prod.lfsym k with
      | none => registerKeys prod ks (acc ++ [((prod.lfsym, k), prod)])
      | some p' =>
          if p' = prod then registerKeys prod ks acc
          else .error ("Ambiguous rule: " ++ prod.lfsym.name)

/-- Infallible variant of `registerKeys` that keeps the first registration
on a collision.  The visible `LL1Parser::new` (src/parser.rs:343-353)
returns `Self` unconditionally, so the missing gram module's
`prediction_sets` cannot propagate the spec's ambiguity failure; a total
collision policy must be picked to model it, and first-registration-wins is
used (by `registerKeys_firstWin` it agrees with the checked registration on
every conflict-free grammar, which is the only behavior src/ pins down). -/
def registerKeysFW (prod : GramProd) :
    List PredSetSym → PredSet → PredSet
  | [], acc => acc
  | k :: ks, acc =>
      match acc.predict prod.lfsym k with
      | none => registerKeysFW prod ks (acc ++ [((prod.lfsym, k), prod)])
      | some _ => registerKeysFW prod ks acc

/-- Modelled from the spec: registration of all productions with the
ambiguity check. -/
def predRegister (fsts : FstSets) (folls : FollSets) :
    List GramProd → PredSet → Except String PredSet
  | [], acc => .ok acc
  | prod :: rest, acc =>
      match registerKeys prod (prodPredSyms fsts folls prod) acc with
      | .ok acc' => predRegister fsts folls rest acc'
      | .error e => .error e

/-- Infallible registration of all productions (first registration wins). -/
def predRegisterFW (fsts : FstSets) (folls : FollSets) :
    List GramProd → PredSet → PredSet
  | [], acc => acc
  | prod :: rest, acc =>
      predRegisterFW fsts folls rest
        (registerKeysFW prod (prodPredSyms fsts folls prod) acc)

/-- Modelled from the spec: the checked prediction-table construction,
`Gram::prediction_sets` as §4.1 describes it — returns the table or an
ambiguity diagnostic naming the offending rule. -/
def Gram.prediction_sets_checked (g : Gram) : Except String PredSet :=
  predRegister g.first_sets (g.follow_sets g.first_sets) g.prods []

/-- The total prediction-table computation actually usable by the
infallible `LL1Parser::new` of src/parser.rs (see `registerKeysFW`). -/
def Gram.prediction_sets (g : Gram) (fsts : FstSets) (folls : FollSets) :
    PredSet :=
  predRegisterFW fsts folls g.prods []

/-! ## Token and AST (src/parser.rs) -/

/-- `Token` (src/parser.rs:22-27): a named lexeme with a source location. -/
structure Token where
  name : String
  value : String
  loc : SrcLoc
deriving DecidableEq, Repr

/-- `Token::to_gram_sym` (src/parser.rs:47-49): the terminal symbol a token
instantiates. -/
def Token.to_gram_sym (t : Token) : GramSym :=
  .Terminal t.name

/-- `Token::to_pred_set_sym` (src/parser.rs:51-53). -/
def Token.to_pred_set_sym (t : Token) : PredSetSym :=
  .Sym t.name

mutual

/-- `ASTNode` (src/parser.rs:180-184): a leaf wrapping a token or a subtree.
The shared-ownership handle (`Rc<RefCell<AST>>`) is modelled away: the parse
loop below carries each node-under-construction in its stack frame and
links a finished child into its parent, which yields the same final tree
because mutation in the source is append-only and follows the stack
discipline. -/
inductive ASTNode where
  | Tree : AST → ASTNode
  | Leaf : Token → ASTNode

/-- `AST` (src/parser.rs:237-242): a grammar symbol and the ordered
`(symbol, child)` list. -/
inductive AST where
  | mk : GramSym → List (GramSym × ASTNode) → AST

end

/-- The grammar symbol of a tree node (`AST::sym`). -/
def AST.sym : AST → GramSym
  | .mk s _ => s

/-- The ordered children of a tree node (`AST::elems`). -/
def AST.elems : AST → List (GramSym × ASTNode)
  | .mk _ es => es

mutual

/-- In-order token (leaf) sequence of a node. -/
def ASTNode.leaves : ASTNode → List Token
  | .Tree a => AST.leaves a
  | .Leaf tok => [tok]

/-- In-order token (leaf) sequence of a tree. -/
def AST.leaves : AST → List Token
  | .mk _ es => elemsLeaves es

/-- In-order token (leaf) sequence of a child list. -/
def elemsLeaves : List (GramSym × ASTNode) → List Token
  | [] => []
  | (_, n) :: rest => ASTNode.leaves n ++ elemsLeaves rest

end

/-- Leaves of a concatenation of child lists. -/
theorem elemsLeaves_append (l1 l2 : List (GramSym × ASTNode)) :
    elemsLeaves (l1 ++ l2) = elemsLeaves l1 ++ elemsLeaves l2 := by
  induction l1 with
  | nil => simp [elemsLeaves]
  | cons e rest ih =>
      obtain ⟨s, n⟩ := e
      simp [elemsLeaves, ih]

/-! ## LL(1) parser (src/parser.rs:334-537) -/

/-- `LL1Parser` (src/parser.rs:334-338): name, grammar and the eagerly
computed prediction sets. -/
structure LL1Parser where
  name : String
  gram : Gram
  prediction_sets : PredSet
deriving DecidableEq, Repr

/-- `LL1Parser::new` (src/parser.rs:343-353): computes FIRST, FOLLOW and
the prediction sets eagerly and always returns a parser — the signature is
`fn new(gram: Gram) -> Self`, with no error path. -/
def LL1Parser.new (g : Gram) : LL1Parser :=
  let fsts := g.first_sets
  let folls := g.follow_sets fsts
  ⟨g.name, g, g.prediction_sets fsts folls⟩

/-- `LL1Parser::predict_prod` (src/parser.rs:359-366). -/
def LL1Parser.predict_prod (p : LL1Parser) (lfsym : GramSym)
    (la : PredSetSym) : Option GramProd :=
  p.prediction_sets.predict lfsym la

/-- The parse errors of src/parser.rs, kept structural.  The source builds
`String`s with `format!`; the rendered text depends on `Display` instances
of the missing gram module, so each message is modelled by the constructor
carrying the data the message interpolates:
`emptyTokens` = "empty tokens" (src/parser.rs:370,421);
`unexpectedRoot` = "Unexpected token: ... for root grammar" (:381-384);
`unfinishedProduction` = "Unfinished production: ..." (:446-453);
`unmatchedToken` = "Unmatched token ..., a ... expected" (:476-479);
`unexpectedToken` = "Unexpected token ... for derive ..." (:516-519);
`tokensRemain` = "Tokens remains: ..." (:530-533). -/
inductive ParseErr where
  | emptyTokens
  | unexpectedRoot (tok : Token)
  | unfinishedProduction (sym : GramSym) (pending : List GramSym)
  | unmatchedToken (tok : Token) (expected : GramSym)
  | unexpectedToken (tok : Token) (sym : GramSym)
  | tokensRemain (rest : List Token)
deriving DecidableEq, Repr

/-- One frame of `LL1ParseStatesStack` (src/parser.rs:340): the node under
construction (its symbol and the children accumulated so far) and the stack
of pending right-hand-side symbols, most-recently-pushed first. -/
structure Frame where
  sym : GramSym
  elems : List (GramSym × ASTNode)
  pending : List GramSym

/-- The tree a frame has built so far. -/
def Frame.toAST (f : Frame) : AST :=
  .mk f.sym f.elems

/-- `AST::insert_tree` (src/parser.rs:279-284) applied to a parent frame:
append a finished subtree as the next child. -/
def Frame.addTree (f : Frame) (t : AST) : Frame :=
  ⟨f.sym, f.elems ++ [(t.sym, .Tree t)], f.pending⟩

/-- The whole parse state: the active (innermost) frame, the suspended
frames below it (immediate parent first, root last — the source's
`states_stack` with `Vec::pop` popping our head), and the shared input
cursor `i`. -/
structure PState where
  top : Frame
  rest : List Frame
  i : Nat

/-- Total number of pending symbols across the stack (the measure the spec
claims shrinks every non-consuming iteration). -/
def PState.pendingCount (st : PState) : Nat :=
  st.top.pending.length + (st.rest.map (fun f => f.pending.length)).sum

/-- Linking every frame's node into its parent, bottoming out at the root:
what the source's `root` Rc already contains at any point of the loop
(children are inserted at expansion time in the source; the functional
model links them when collapsing or when a frame is left). -/
def collapseStack : Frame → List Frame → AST
  | f, [] => f.toAST
  | f, g :: rest => collapseStack (g.addTree f.toAST) rest

/-- `tokens[i]` as the source indexes it.  Every use is guarded by the
cursor checks of the loop, so the default token is never actually read. -/
def getTok (tokens : List Token) (i : Nat) : Token :=
  tokens.getD i ⟨"", "", ⟨0, 0⟩⟩

/-- Result of one iteration of the parse loop. -/
inductive StepRes where
  | cont (st : PState)
  | done (r : Except ParseErr AST)

/-- One iteration of the nested loops of `ll1_parse`
(src/parser.rs:429-527), as a step function on the explicit state:

* pending stack exhausted (inner `while` ends): resume the parent frame
  (the finished node is already linked in the source; the model links it
  now), or — with no parent — fall through to the final check
  (src/parser.rs:529-536);
* input exhausted (`i > tokenslastpos`, :440-454): succeed returning the
  root if the popped symbol admits the end-of-input lookahead, else fail
  with "Unfinished production";
* terminal symbol (:456-481): match the current token and append it as a
  leaf, advancing the cursor — and when that consumed the last token,
  `break` out of the inner loop, abandoning this frame's remaining pending
  symbols (:471-473); a mismatch fails with "Unmatched token";
* nonterminal (:482-521): look up the prediction table; a `Str` production
  opens a child frame (leftmost symbol popped first, :489-508); an
  `Epsilon` production just continues (:510-512); a missing entry fails
  with "Unexpected token ... for derive". -/
def step (p : LL1Parser) (tokens : List Token) (st : PState) : StepRes :=
  match st.top.pending with
  | [] =>
      match st.rest with
      | [] => .done (if st.i < tokens.length - 1 then
                      .error (.tokensRemain (tokens.drop st.i))
                    else .ok st.top.toAST)
      | g :: rs => .cont ⟨g.addTree st.top.toAST, rs, st.i⟩
  | s :: ps =>
      if st.i > tokens.length - 1 then
        match p.predict_prod s .EndMarker with
        | some _ => .done (.ok (collapseStack st.top st.rest))
        | none => .done (.error (.unfinishedProduction st.top.sym ps))
      else
        let tok := getTok tokens st.i
        if s.is_terminal then
          if s = tok.to_gram_sym then
            let top' : Frame := ⟨st.top.sym, st.top.elems ++ [(tok.to_gram_sym, .Leaf tok)], ps⟩
            if st.i + 1 = tokens.length then
              match st.rest with
              | [] => .done (if st.i + 1 < tokens.length - 1 then
                              .error (.tokensRemain (tokens.drop (st.i + 1)))
                            else .ok top'.toAST)
              | g :: rs => .cont ⟨g.addTree top'.toAST, rs, st.i + 1⟩
            else
              .cont ⟨top', st.rest, st.i + 1⟩
          else .done (.error (.unmatchedToken tok s))
        else
          match p.predict_prod s tok.to_pred_set_sym with
          | some prod =>
              match prod.rhstr with
              | .Str symstr => .cont ⟨⟨s, [], symstr⟩, ⟨st.top.sym, st.top.elems, ps⟩ :: st.rest, st.i⟩
              | .Epsilon => .cont ⟨⟨st.top.sym, st.top.elems, ps⟩, st.rest, st.i⟩
          | none => .done (.error (.unexpectedToken tok s))

/-- Run the loop with fuel; `none` means the fuel ran out (the loop in the
source has no such bound — it can genuinely diverge, see the C5 theorems). -/
def runF (p : LL1Parser) (tokens : List Token) : Nat → PState → Option (Except ParseErr AST)
  | 0, _ => none
  | n + 1, st =>
      match step p tokens st with
      | .done r => some r
      | .cont st' => runF p tokens n st'

/-- `ll1_parse` (src/parser.rs:415-537) with fuel: the empty-input guard
(:420-422) and then the loop from the given initial frame. -/
def ll1_parseF (p : LL1Parser) (tokens : List Token) (fuel : Nat)
    (top : Frame) (rest : List Frame) : Option (Except ParseErr AST) :=
  if tokens = [] then some (.error .emptyTokens)
  else runF p tokens fuel ⟨top, rest, 0⟩

/-- Observable outcome of `LL1Parser::parse`: a tree, an error string
(modelled structurally), or a panic. -/
inductive POut where
  | panic
  | ok (t : AST)
  | err (e : ParseErr)

/-- `LL1Parser::parse` (src/parser.rs:368-409) with fuel:

* empty input fails immediately with "empty tokens" (:369-371);
* `start_sym().unwrap()` (:378) panics when the grammar has no start
  symbol;
* the root prediction lookup (:387-388) either leaves the prepared
  "Unexpected token ... for root grammar" error (:381-384), hits the
  `unreachable!()` (:404) when the production's rhs is `Epsilon`, or opens
  the derivation stack with the production's rhs and runs `ll1_parse`
  (:389-401). -/
def parseF (fuel : Nat) (p : LL1Parser) (tokens : List Token) : Option POut :=
  if tokens = [] then some (.err .emptyTokens)
  else
    match p.gram.start_sym with
    | none => some .panic
    | some start_sym =>
        match p.predict_prod start_sym (getTok tokens 0).to_pred_set_sym with
        | some prod =>
            match prod.rhstr with
            | .Str gramsym_vec =>
                (ll1_parseF p tokens fuel ⟨start_sym, [], gramsym_vec⟩ []).map
                  (fun r => match r with
                    | .ok t => .ok t
                    | .error e => .err e)
            | .Epsilon => some .panic
        | none => some (.err (.unexpectedRoot (getTok tokens 0)))

/-! ## Concrete grammars used by the claims -/

/-- The terminal `a`. -/
def tA : GramSym := .Terminal "a"

/-- The terminal `b`. -/
def tB : GramSym := .Terminal "b"

/-- The nonterminal `S`. -/
def ntS : GramSym := .NonTerminal "S"

/-- The nonterminal `A`. -/
def ntA : GramSym := .NonTerminal "A"

/-- The nonterminal `B`. -/
def ntB : GramSym := .NonTerminal "B"

/-- The nonterminal `T`. -/
def ntT : GramSym := .NonTerminal "T"

/-- A token for the terminal `a`. -/
def tokA : Token := ⟨"a", "a", ⟨0, 0⟩⟩

/-- A token for the terminal `b`. -/
def tokB : Token := ⟨"b", "b", ⟨0, 1⟩⟩

/-- Grammar `S → a`. -/
def g2 : Gram := ⟨"G2", [⟨ntS, .Str [tA]⟩]⟩

/-- Grammar `S → a b`. -/
def g3 : Gram := ⟨"G3", [⟨ntS, .Str [tA, tB]⟩]⟩

/-- Grammar `S → a A; A → B; B → ε` (LL(1), conflict-free). -/
def g4 : Gram :=
  ⟨"G4", [⟨ntS, .Str [tA, ntA]⟩, ⟨ntA, .Str [ntB]⟩, ⟨ntB, .Epsilon⟩]⟩

/-- Ambiguous grammar `S → a; S → a b`: both productions claim the
prediction slot `(S, a)`. -/
def gAmb : Gram := ⟨"Gamb", [⟨ntS, .Str [tA]⟩, ⟨ntS, .Str [tA, tB]⟩]⟩

/-- Grammar `S → A b; A → ε` (epsilon expansion under a live token). -/
def gE : Gram := ⟨"GE", [⟨ntS, .Str [ntA, tB]⟩, ⟨ntA, .Epsilon⟩]⟩

/-- Grammar `S → ε; T → S b`: the start symbol has an epsilon production
predicted at the terminal `b` (via FOLLOW), so the root lookup can yield an
`Epsilon` right-hand side. -/
def gEpsStart : Gram := ⟨"GES", [⟨ntS, .Epsilon⟩, ⟨ntT, .Str [ntS, tB]⟩]⟩

/-- The left-recursive production `S → S a`. -/
def prodSSa : GramProd := ⟨ntS, .Str [ntS, tA]⟩

/-- Grammar `S → S a; S → a`: left-recursive and not LL(1). -/
def gLoop : Gram := ⟨"Gloop", [prodSSa, ⟨ntS, .Str [tA]⟩]⟩

/-! ## Helper lemmas: checked vs infallible table registration -/

/-- When the checked registration of one production's keys succeeds, the
first-registration-wins variant computes the same table. -/
theorem registerKeys_firstWin (prod : GramProd) :
    ∀ ks acc out, registerKeys prod ks acc = .ok out →
      registerKeysFW prod ks acc = out := by
  intro ks
  induction ks with
  | nil =>
      intro acc out h
      simp only [registerKeys] at h
      cases h
      rfl
  | cons k ks ih =>
      intro acc out h
      simp only [registerKeys] at h
      simp only [registerKeysFW]
      cases hpred : PredSet.predict acc prod.lfsym k with
      | none =>
          rw [hpred] at h
          exact ih _ _ h
      | some p' =>
          rw [hpred] at h
          dsimp only at h
          by_cases hpp : p' = prod
          · rw [if_pos hpp] at h
            exact ih _ _ h
          · rw [if_neg hpp] at h
            cases h

/-- When the checked registration of a production list succeeds, the
first-registration-wins variant computes the same table. -/
theorem predRegister_firstWin (fsts : FstSets) (folls : FollSets) :
    ∀ prods acc out, predRegister fsts folls prods acc = .ok out →
      predRegisterFW fsts folls prods acc = out := by
  intro prods
  induction prods with
  | nil =>
      intro acc out h
      simp only [predRegister] at h
      cases h
      rfl
  | cons prod rest ih =>
      intro acc out h
      simp only [predRegister] at h
      simp only [predRegisterFW]
      cases hreg : registerKeys prod (prodPredSyms fsts folls prod) acc with
      | ok acc' =>
          rw [hreg] at h
          rw [registerKeys_firstWin prod _ _ _ hreg]
          exact ih _ _ h
      | error e =>
          rw [hreg] at h
          cases h

/-! ## Helper lemmas: the branches of `step` -/

/-- Branch: pending stack and frame stack both exhausted — the final check
of src/parser.rs:529-536. -/
theorem step_finish (p : LL1Parser) (tokens : List Token) (sym : GramSym)
    (elems : List (GramSym × ASTNode)) (i : Nat) :
    step p tokens ⟨⟨sym, elems, []⟩, [], i⟩ =
      .done (if i < tokens.length - 1 then
              .error (.tokensRemain (tokens.drop i))
            else .ok (AST.mk sym elems)) := rfl

/-- Branch: pending stack exhausted with a suspended parent — resume it. -/
theorem step_resume (p : LL1Parser) (tokens : List Token) (sym : GramSym)
    (elems : List (GramSym × ASTNode)) (g : Frame) (rs : List Frame) (i : Nat) :
    step p tokens ⟨⟨sym, elems, []⟩, g :: rs, i⟩ =
      .cont ⟨g.addTree (AST.mk sym elems), rs, i⟩ := rfl

/-- Branch: input exhausted and the popped symbol admits the end-of-input
lookahead — return the root (src/parser.rs:441-444). -/
theorem step_eof_ok (p : LL1Parser) (tokens : List Token) (sym : GramSym)
    (elems : List (GramSym × ASTNode)) (s : GramSym) (ps : List GramSym)
    (rest : List Frame) (i : Nat) (prod : GramProd)
    (hi : i > tokens.length - 1)
    (hpred : p.predict_prod s PredSetSym.EndMarker = some prod) :
    step p tokens ⟨⟨sym, elems, s :: ps⟩, rest, i⟩ =
      .done (.ok (collapseStack ⟨sym, elems, s :: ps⟩ rest)) := by
  simp only [step, hpred, if_pos hi]

/-- Branch: input exhausted and the popped symbol does not admit the
end-of-input lookahead — "Unfinished production" (src/parser.rs:445-453). -/
theorem step_eof_none (p : LL1Parser) (tokens : List Token) (sym : GramSym)
    (elems : List (GramSym × ASTNode)) (s : GramSym) (ps : List GramSym)
    (rest : List Frame) (i : Nat)
    (hi : i > tokens.length - 1)
    (hpred : p.predict_prod s PredSetSym.EndMarker = none) :
    step p tokens ⟨⟨sym, elems, s :: ps⟩, rest, i⟩ =
      .done (.error (.unfinishedProduction sym ps)) := by
  simp only [step, hpred, if_pos hi]

/-- Branch: matching terminal, not the last token — eat it and continue
(src/parser.rs:461-469). -/
theorem step_term_mid (p : LL1Parser) (tokens : List Token) (sym : GramSym)
    (elems : List (GramSym × ASTNode)) (s : GramSym) (ps : List GramSym)
    (rest : List Frame) (i : Nat)
    (hi : ¬ i > tokens.length - 1)
    (hterm : s.is_terminal = true)
    (hmatch : s = (getTok tokens i).to_gram_sym)
    (hlast : ¬ i + 1 = tokens.length) :
    step p tokens ⟨⟨sym, elems, s :: ps⟩, rest, i⟩ =
      .cont ⟨⟨sym, elems ++ [((getTok tokens i).to_gram_sym, .Leaf (getTok tokens i))], ps⟩,
             rest, i + 1⟩ := by
  simp only [step, if_neg hi, hterm, if_pos hmatch, if_neg hlast, if_true]

/-- Branch: matching terminal consuming the last token with no suspended
parent — the `break` of src/parser.rs:471-473 followed by the final check,
abandoning the frame's remaining pending symbols `ps`. -/
theorem step_term_last_finish (p : LL1Parser) (tokens : List Token)
    (sym : GramSym) (elems : List (GramSym × ASTNode)) (s : GramSym)
    (ps : List GramSym) (i : Nat)
    (hi : ¬ i > tokens.length - 1)
    (hterm : s.is_terminal = true)
    (hmatch : s = (getTok tokens i).to_gram_sym)
    (hlast : i + 1 = tokens.length) :
    step p tokens ⟨⟨sym, elems, s :: ps⟩, [], i⟩ =
      .done (if i + 1 < tokens.length - 1 then
              .error (.tokensRemain (tokens.drop (i + 1)))
            else .ok (AST.mk sym (elems ++ [((getTok tokens i).to_gram_sym, .Leaf (getTok tokens i))]))) := by
  simp only [step, if_neg hi, hterm, if_pos hmatch, if_pos hlast, if_true]
  rfl

/-- Branch: matching terminal consuming the last token with a suspended
parent — the `break` abandons `ps` and the parent resumes. -/
theorem step_term_last_resume (p : LL1Parser) (tokens : List Token)
    (sym : GramSym) (elems : List (GramSym × ASTNode)) (s : GramSym)
    (ps : List GramSym) (g : Frame) (rs : List Frame) (i : Nat)
    (hi : ¬ i > tokens.length - 1)
    (hterm : s.is_terminal = true)
    (hmatch : s = (getTok tokens i).to_gram_sym)
    (hlast : i + 1 = tokens.length) :
    step p tokens ⟨⟨sym, elems, s :: ps⟩, g :: rs, i⟩ =
      .cont ⟨g.addTree (AST.mk sym (elems ++ [((getTok tokens i).to_gram_sym, .Leaf (getTok tokens i))])),
             rs, i + 1⟩ := by
  simp only [step, if_neg hi, hterm, if_pos hmatch, if_pos hlast, if_true]
  rfl

/-- Branch: terminal mismatch — "Unmatched token" (src/parser.rs:475-480). -/
theorem step_term_mismatch (p : LL1Parser) (tokens : List Token)
    (sym : GramSym) (elems : List (GramSym × ASTNode)) (s : GramSym)
    (ps : List GramSym) (rest : List Frame) (i : Nat)
    (hi : ¬ i > tokens.length - 1)
    (hterm : s.is_terminal = true)
    (hmatch : ¬ s = (getTok tokens i).to_gram_sym) :
    step p tokens ⟨⟨sym, elems, s :: ps⟩, rest, i⟩ =
      .done (.error (.unmatchedToken (getTok tokens i) s)) := by
  simp only [step, if_neg hi, hterm, if_neg hmatch, if_true]

/-- Branch: nonterminal expansion by a `Str` production — open a child
frame (src/parser.rs:488-508). -/
theorem step_nt_str (p : LL1Parser) (tokens : List Token) (sym : GramSym)
    (elems : List (GramSym × ASTNode)) (s : GramSym) (ps : List GramSym)
    (rest : List Frame) (i : Nat) (prod : GramProd) (symstr : List GramSym)
    (hi : ¬ i > tokens.length - 1)
    (hterm : s.is_terminal = false)
    (hpred : p.predict_prod s (getTok tokens i).to_pred_set_sym = some prod)
    (hrh : prod.rhstr = .Str symstr) :
    step p tokens ⟨⟨sym, elems, s :: ps⟩, rest, i⟩ =
      .cont ⟨⟨s, [], symstr⟩, ⟨sym, elems, ps⟩ :: rest, i⟩ := by
  simp only [step, if_neg hi, hterm, hpred, hrh, Bool.false_eq_true, if_false]

/-- Branch: nonterminal with an `Epsilon` production — consume nothing,
build nothing, continue (src/parser.rs:510-512). -/
theorem step_nt_eps (p : LL1Parser) (tokens : List Token) (sym : GramSym)
    (elems : List (GramSym × ASTNode)) (s : GramSym) (ps : List GramSym)
    (rest : List Frame) (i : Nat) (prod : GramProd)
    (hi : ¬ i > tokens.length - 1)
    (hterm : s.is_terminal = false)
    (hpred : p.predict_prod s (getTok tokens i).to_pred_set_sym = some prod)
    (hrh : prod.rhstr = .Epsilon) :
    step p tokens ⟨⟨sym, elems, s :: ps⟩, rest, i⟩ =
      .cont ⟨⟨sym, elems, ps⟩, rest, i⟩ := by
  simp only [step, if_neg hi, hterm, hpred, hrh, Bool.false_eq_true, if_false]

/-- Branch: nonterminal without a table entry — "Unexpected token ... for
derive" (src/parser.rs:515-520). -/
theorem step_nt_none (p : LL1Parser) (tokens : List Token) (sym : GramSym)
    (elems : List (GramSym × ASTNode)) (s : GramSym) (ps : List GramSym)
    (rest : List Frame) (i : Nat)
    (hi : ¬ i > tokens.length - 1)
    (hterm : s.is_terminal = false)
    (hpred : p.predict_prod s (getTok tokens i).to_pred_set_sym = none) :
    step p tokens ⟨⟨sym, elems, s :: ps⟩, rest, i⟩ =
      .done (.error (.unexpectedToken (getTok tokens i) s)) := by
  simp only [step, if_neg hi, hterm, hpred, Bool.false_eq_true, if_false]

/-! ## Helper lemmas: divergence of the loop on a left-recursive entry -/

/-- The active frame reproduced forever by the left-recursive prediction
entry of `gLoop`. -/
def loopTop : Frame := ⟨ntS, [], [ntS, tA]⟩

/-- One iteration on the left-recursive entry: the expansion of `S` by
`S → S a` consumes no token and recreates the same active frame on top of
a grown stack. -/
theorem loopStep (r : List Frame) :
    step (LL1Parser.new gLoop) [tokA] ⟨loopTop, r, 0⟩ =
      .cont ⟨loopTop, ⟨ntS, [], [tA]⟩ :: r, 0⟩ := by
  have hpred : (LL1Parser.new gLoop).predict_prod ntS
      (getTok [tokA] 0).to_pred_set_sym = some prodSSa := rfl
  exact step_nt_str _ _ _ _ _ _ _ _ _ _ (by decide) rfl hpred rfl

/-- The loop on the left-recursive entry never runs out of work: every
amount of fuel is exhausted. -/
theorem loopRunNone :
    ∀ (n : Nat) (r : List Frame),
      runF (LL1Parser.new gLoop) [tokA] n ⟨loopTop, r, 0⟩ = none := by
  intro n
  induction n with
  | zero => intro r; rfl
  | succ n ih =>
      intro r
      rw [runF, loopStep r]
      exact ih _

/-- `ll1_parse` returns (with some fuel) on the given initial frame. -/
def ll1Returns (p : LL1Parser) (tokens : List Token) (top : Frame) : Prop :=
  ∃ n r, ll1_parseF p tokens n top [] = some r

/-- `parse` returns (with some fuel). -/
def parseReturns (p : LL1Parser) (tokens : List Token) : Prop :=
  ∃ n out, parseF n p tokens = some out

/-- `parse` runs forever: every amount of fuel is exhausted. -/
def parseDiverges (p : LL1Parser) (tokens : List Token) : Prop :=
  ∀ n, parseF n p tokens = none

/-- `ll1_parse` runs forever on the given initial frame: every amount of
fuel is exhausted. -/
def ll1Diverges (p : LL1Parser) (tokens : List Token) (top : Frame) : Prop :=
  ∀ n, ll1_parseF p tokens n top [] = none

/-- On the parser built from `gLoop`, `parse [a]` reduces to the loop on
the left-recursive entry. -/
theorem parseF_gLoop (n : Nat) :
    parseF n (LL1Parser.new gLoop) [tokA] =
      (runF (LL1Parser.new gLoop) [tokA] n ⟨loopTop, [], 0⟩).map
        (fun r => match r with
          | .ok t => POut.ok t
          | .error e => POut.err e) := rfl

/-! ## Helper lemmas: the leaf sequence tracked by the loop -/

/-- Leaves already recorded in the suspended frames, root first. -/
def belowLeaves : List Frame → List Token
  | [] => []
  | g :: rs => belowLeaves rs ++ elemsLeaves g.elems

/-- All leaves recorded anywhere in the parse state, in order. -/
def PState.leavesSoFar (st : PState) : List Token :=
  belowLeaves st.rest ++ elemsLeaves st.top.elems

/-- The leaves of the collapsed stack are exactly the recorded leaves. -/
theorem collapseStack_leaves (rest : List Frame) :
    ∀ f : Frame, (collapseStack f rest).leaves
      = belowLeaves rest ++ elemsLeaves f.elems := by
  induction rest with
  | nil =>
      intro f
      simp [collapseStack, Frame.toAST, AST.leaves, belowLeaves]
  | cons g rs ih =>
      intro f
      simp only [collapseStack, belowLeaves]
      rw [ih]
      simp only [Frame.addTree, elemsLeaves_append, elemsLeaves,
        ASTNode.leaves, AST.leaves, Frame.toAST]
      simp [List.append_assoc]

/-- The guarded index read: within bounds, `getTok` is a real element. -/
theorem getTok_spec (tokens : List Token) (i : Nat) (h : i < tokens.length) :
    tokens[i]? = some (getTok tokens i) := by
  simp [getTok, List.getD_eq_getElem?_getD, List.getElem?_eq_getElem h]

/-- One loop iteration preserves the leaf invariant: the recorded leaves
are exactly the consumed tokens, and a successful exit returns a tree whose
leaves are a prefix of the input. -/
theorem step_leaves (p : LL1Parser) (tokens : List Token)
    (hne : tokens ≠ []) (st : PState)
    (hinv : st.leavesSoFar = tokens.take st.i)
    (hle : st.i ≤ tokens.length) :
    (∀ st', step p tokens st = .cont st' →
      st'.leavesSoFar = tokens.take st'.i ∧ st'.i ≤ tokens.length) ∧
    (∀ t, step p tokens st = .done (Except.ok t) →
      ∃ r, AST.leaves t ++ r = tokens) := by
  obtain ⟨⟨sym, elems, pending⟩, rest, i⟩ := st
  simp only [PState.leavesSoFar] at hinv
  simp only at hle
  cases pending with
  | nil =>
      cases rest with
      | nil =>
          rw [step_finish]
          constructor
          · intro st' h
            cases h
          · intro t h
            by_cases hrem : i < tokens.length - 1
            · rw [if_pos hrem] at h
              cases h
            · rw [if_neg hrem] at h
              injection h with h
              injection h with h
              subst h
              refine ⟨tokens.drop i, ?_⟩
              simp only [belowLeaves] at hinv
              simp only [AST.leaves]
              rw [List.nil_append] at hinv
              rw [hinv]
              exact List.take_append_drop i tokens
      | cons g rs =>
          rw [step_resume]
          constructor
          · intro st' h
            injection h with h
            subst h
            constructor
            · simp only [PState.leavesSoFar, Frame.addTree, belowLeaves,
                elemsLeaves_append, elemsLeaves, ASTNode.leaves, AST.leaves]
              simp only [belowLeaves] at hinv
              rw [← hinv]
              simp [List.append_assoc]
            · exact hle
          · intro t h
            cases h
  | cons s ps =>
      by_cases hi : i > tokens.length - 1
      · cases hpred : p.predict_prod s PredSetSym.EndMarker with
        | some prod =>
            rw [step_eof_ok p tokens sym elems s ps rest i prod hi hpred]
            constructor
            · intro st' h
              cases h
            · intro t h
              injection h with h
              injection h with h
              subst h
              refine ⟨tokens.drop i, ?_⟩
              rw [collapseStack_leaves]
              simp only
              rw [hinv]
              exact List.take_append_drop i tokens
        | none =>
            rw [step_eof_none p tokens sym elems s ps rest i hi hpred]
            constructor
            · intro st' h
              cases h
            · intro t h
              injection h with h
              cases h
      · have hpos : 0 < tokens.length := List.length_pos.mpr hne
        have hilen : i < tokens.length := by omega
        have htok := getTok_spec tokens i hilen
        have htake : tokens.take (i + 1)
            = tokens.take i ++ [getTok tokens i] := by
          rw [List.take_succ, htok]
          rfl
        cases hterm : s.is_terminal with
        | true =>
            by_cases hmatch : s = (getTok tokens i).to_gram_sym
            · by_cases hlast : i + 1 = tokens.length
              · cases rest with
                | nil =>
                    rw [step_term_last_finish p tokens sym elems s ps i hi hterm hmatch hlast]
                    constructor
                    · intro st' h
                      by_cases hrem : i + 1 < tokens.length - 1
                      · rw [if_pos hrem] at h
                        cases h
                      · rw [if_neg hrem] at h
                        cases h
                    · intro t h
                      by_cases hrem : i + 1 < tokens.length - 1
                      · rw [if_pos hrem] at h
                        injection h with h
                        cases h
                      · rw [if_neg hrem] at h
                        injection h with h
                        injection h with h
                        subst h
                        refine ⟨[], ?_⟩
                        simp only [AST.leaves, elemsLeaves_append, elemsLeaves,
                          ASTNode.leaves, List.append_nil]
                        simp only [belowLeaves, List.nil_append] at hinv
                        rw [hinv, ← htake, hlast]
                        simp
                | cons g rs =>
                    rw [step_term_last_resume p tokens sym elems s ps g rs i hi hterm hmatch hlast]
                    constructor
                    · intro st' h
                      injection h with h
                      subst h
                      constructor
                      · simp only [PState.leavesSoFar, Frame.addTree, belowLeaves,
                          elemsLeaves_append, elemsLeaves, ASTNode.leaves, AST.leaves,
                          List.append_nil]
                        rw [htake, ← hinv]
                        simp [belowLeaves, List.append_assoc]
                      · show i + 1 ≤ tokens.length
                        omega
                    · intro t h
                      cases h
              · rw [step_term_mid p tokens sym elems s ps rest i hi hterm hmatch hlast]
                constructor
                · intro st' h
                  injection h with h
                  subst h
                  constructor
                  · simp only [PState.leavesSoFar, belowLeaves,
                      elemsLeaves_append, elemsLeaves, ASTNode.leaves,
                      List.append_nil]
                    rw [htake, ← hinv]
                    simp [belowLeaves, List.append_assoc]
                  · show i + 1 ≤ tokens.length
                    omega
                · intro t h
                  cases h
            · rw [step_term_mismatch p tokens sym elems s ps rest i hi hterm hmatch]
              constructor
              · intro st' h
                cases h
              · intro t h
                injection h with h
                cases h
        | false =>
            cases hpred : p.predict_prod s (getTok tokens i).to_pred_set_sym with
            | some prod =>
                cases hrh : prod.rhstr with
                | Str symstr =>
                    rw [step_nt_str p tokens sym elems s ps rest i prod symstr hi hterm hpred hrh]
                    constructor
                    · intro st' h
                      injection h with h
                      subst h
                      constructor
                      · simp only [PState.leavesSoFar, belowLeaves, elemsLeaves,
                          List.append_nil]
                        exact hinv
                      · exact hle
                    · intro t h
                      cases h
                | Epsilon =>
                    rw [step_nt_eps p tokens sym elems s ps rest i prod hi hterm hpred hrh]
                    constructor
                    · intro st' h
                      injection h with h
                      subst h
                      exact ⟨hinv, hle⟩
                    · intro t h
                      cases h
            | none =>
                rw [step_nt_none p tokens sym elems s ps rest i hi hterm hpred]
                constructor
                · intro st' h
                  cases h
                · intro t h
                  injection h with h
                  cases h

/-- The loop invariant at the run level: a successful run from an invariant
state returns a tree whose leaf sequence is a prefix of the input. -/
theorem runF_leaves (p : LL1Parser) (tokens : List Token) (hne : tokens ≠ []) :
    ∀ (n : Nat) (st : PState) (t : AST),
      st.leavesSoFar = tokens.take st.i → st.i ≤ tokens.length →
      runF p tokens n st = some (Except.ok t) →
      ∃ r, AST.leaves t ++ r = tokens := by
  intro n
  induction n with
  | zero =>
      intro st t _ _ h
      cases h
  | succ n ih =>
      intro st t h1 h2 h
      rw [runF] at h
      cases hs : step p tokens st with
      | done r =>
          rw [hs] at h
          injection h with h
          subst h
          exact (step_leaves p tokens hne st h1 h2).2 t hs
      | cont st' =>
          rw [hs] at h
          obtain ⟨h1', h2'⟩ := (step_leaves p tokens hne st h1 h2).1 st' hs
          exact ih st' t h1' h2' h

/-! ## Claim theorems -/

/-- C1, counterexample: the claim says constructing an `LL1Parser` from a
non-LL(1) grammar fails and returns a diagnostic naming the ambiguous rule
instead of a ready parser.  On the grammar `S → a; S → a b` the (spec-
modelled) checked prediction-set construction does detect the collision on
the slot `(S, a)` and produces the diagnostic naming `S` — but the visible
`LL1Parser::new` (src/parser.rs:343-353) has the infallible signature
`fn new(gram: Gram) -> Self`: construction still returns a ready parser,
with the colliding slot silently holding the first production.  No
diagnostic can be returned at construction time. -/
theorem C1_counterexample :
    Gram.prediction_sets_checked gAmb = Except.error ("Ambiguous rule: S") ∧
    LL1Parser.new gAmb =
      ⟨"Gamb", gAmb, [((ntS, PredSetSym.Sym "a"), ⟨ntS, GramSymStr.Str [tA]⟩)]⟩ :=
  ⟨rfl, rfl⟩

/-- C1, amended: construction computes the prediction sets eagerly but is
infallible — `LL1Parser::new` always returns a ready parser, and whenever
the spec's checked construction succeeds (the grammar is LL(1)), the table
the parser holds is exactly the checked table.  For an ambiguous grammar
construction still returns a parser (see the counterexample) rather than a
diagnostic. -/
theorem C1_amended (g : Gram) (T : PredSet)
    (h : Gram.prediction_sets_checked g = Except.ok T) :
    (LL1Parser.new g).prediction_sets = T := by
  have h2 : (LL1Parser.new g).prediction_sets
      = predRegisterFW g.first_sets (g.follow_sets g.first_sets) g.prods [] := rfl
  rw [h2]
  exact predRegister_firstWin _ _ _ _ _ h

/-- C1, witness: on the conflict-free grammar `S → a A; A → B; B → ε` the
checked construction succeeds and the constructed parser holds exactly the
checked table. -/
theorem C1_witness :
    (LL1Parser.new g4).prediction_sets =
      [((ntS, PredSetSym.Sym "a"), ⟨ntS, GramSymStr.Str [tA, ntA]⟩),
       ((ntA, PredSetSym.EndMarker), ⟨ntA, GramSymStr.Str [ntB]⟩),
       ((ntB, PredSetSym.EndMarker), ⟨ntB, GramSymStr.Epsilon⟩)] :=
  C1_amended g4 _ rfl

/-- C2, code bug: the claim (and the spec) say parse succeeds only when the
cursor has consumed exactly all tokens, and that leftover tokens give the
"tokens remain" failure.  The final check of `ll1_parse`
(src/parser.rs:529) is `i < tokenslastpos` with `tokenslastpos = len - 1`
instead of `i < len`, so exactly one unconsumed trailing token is silently
accepted: with the grammar `S → a` and the input `[a, b]`, the stack
empties at cursor 1 of 2 and parse returns `Ok` with the tree `S[a]`,
leaving `b` unconsumed. -/
theorem C2_theorem :
    parseF 9 (LL1Parser.new g2) [tokA, tokB]
      = some (POut.ok (AST.mk ntS [(tA, ASTNode.Leaf tokA)])) := rfl

/-- C3, counterexample: the claim says every strict prefix of a valid
sentence fails with "unfinished production" and pending symbols are never
silently discarded.  For the grammar `S → a b`, the input `[a, b]` is a
valid sentence (second conjunct), so `[a]` is a strict prefix of a valid
sentence — yet parse accepts it (first conjunct): consuming the last token
`break`s out of the inner loop (src/parser.rs:471-473), silently
discarding the pending `b`, and the final check accepts. -/
theorem C3_counterexample :
    parseF 9 (LL1Parser.new g3) [tokA]
        = some (POut.ok (AST.mk ntS [(tA, ASTNode.Leaf tokA)])) ∧
    parseF 9 (LL1Parser.new g3) [tokA, tokB]
        = some (POut.ok (AST.mk ntS [(tA, ASTNode.Leaf tokA),
                                     (tB, ASTNode.Leaf tokB)])) :=
  ⟨rfl, rfl⟩

/-- C3, amended: the "unfinished production" failure does occur exactly as
described for a pending symbol popped while the input is exhausted: when
the cursor is past the last token and the popped symbol has no end-of-input
prediction entry, the loop fails with "Unfinished production" — but pending
symbols left in the frame that consumed the last token are silently
discarded by the `break` of src/parser.rs:471-473 without this check, so a
strict prefix of a valid sentence can be accepted (see the
counterexample). -/
theorem C3_amended (p : LL1Parser) (tokens : List Token) (sym : GramSym)
    (elems : List (GramSym × ASTNode)) (s : GramSym) (ps : List GramSym)
    (rest : List Frame) (i : Nat)
    (hi : i > tokens.length - 1)
    (hp : p.predict_prod s PredSetSym.EndMarker = none) :
    step p tokens ⟨⟨sym, elems, s :: ps⟩, rest, i⟩ =
      .done (.error (.unfinishedProduction sym ps)) :=
  step_eof_none p tokens sym elems s ps rest i hi hp

/-- C3, witness: with the parser of `S → a b`, popping the pending `S`
after the single token `a` has been consumed fails with "Unfinished
production". -/
theorem C3_witness :
    step (LL1Parser.new g3) [tokA] ⟨⟨ntS, [], [ntS]⟩, [], 1⟩ =
      .done (.error (.unfinishedProduction ntS [])) :=
  C3_amended (LL1Parser.new g3) [tokA] ntS [] ntS [] [] 1 (by decide) rfl

/-- C4, counterexample: the claim says that for an unambiguous grammar and
a generable token sequence, parse returns a tree whose node labeling
matches the generating production sequence.  The grammar
`S → a A; A → B; B → ε` is LL(1) (its checked table construction succeeds,
see C1's witness) and `[a]` is generable only through the production
sequence `S → a A, A → B, B → ε` — the derivation tree contains an
`A`-labelled child of the root.  The parser instead returns `S[a]` with no
`A` node at all: after the last token is consumed, the pending `A` is
discarded by the `break` of src/parser.rs:471-473 (and a symbol popped at
end of input is answered by the immediate `return Ok(root)` of
src/parser.rs:441-444, which also creates no node). -/
theorem C4_counterexample :
    parseF 9 (LL1Parser.new g4) [tokA]
      = some (POut.ok (AST.mk ntS [(tA, ASTNode.Leaf tokA)])) := rfl

/-- C4, amended: the leaf half of the round-trip that does hold, for every
parser, input and fuel: whenever parse succeeds, the returned tree's
in-order leaf sequence is exactly the prefix of consumed input tokens (the
parse never invents, duplicates or reorders leaves).  The node-labeling
half fails: nonterminals expanded after the last consumed token contribute
no nodes (see the counterexample). -/
theorem C4_amended (p : LL1Parser) (tokens : List Token) (n : Nat) (t : AST)
    (h : parseF n p tokens = some (POut.ok t)) :
    ∃ r, AST.leaves t ++ r = tokens := by
  by_cases hne : tokens = []
  · subst hne
    have he : parseF n p [] = some (POut.err ParseErr.emptyTokens) := rfl
    rw [he] at h
    injection h with h
    exact POut.noConfusion h
  · cases hstart : p.gram.start_sym with
    | none =>
        simp only [parseF, if_neg hne, hstart] at h
        injection h with h
        exact POut.noConfusion h
    | some s0 =>
        cases hpred : p.predict_prod s0 (getTok tokens 0).to_pred_set_sym with
        | none =>
            simp only [parseF, if_neg hne, hstart, hpred] at h
            injection h with h
            exact POut.noConfusion h
        | some prod =>
            cases hrh : prod.rhstr with
            | Epsilon =>
                simp only [parseF, if_neg hne, hstart, hpred, hrh] at h
                injection h with h
                exact POut.noConfusion h
            | Str v =>
                simp only [parseF, if_neg hne, hstart, hpred, hrh] at h
                unfold ll1_parseF at h
                rw [if_neg hne] at h
                obtain ⟨r, hr, hfr⟩ := Option.map_eq_some'.mp h
                cases r with
                | error e => exact POut.noConfusion hfr
                | ok t' =>
                    have ht : t' = t := by
                      injection hfr
                    subst ht
                    refine runF_leaves p tokens hne n ⟨⟨s0, [], v⟩, [], 0⟩ t' ?_ ?_ hr
                    · show PState.leavesSoFar _ = tokens.take 0
                      simp [PState.leavesSoFar, belowLeaves, elemsLeaves]
                    · exact Nat.zero_le _

/-- C4, witness: parse of `[a, b]` with the parser of `S → a b` succeeds
and the returned tree's leaves are a prefix (here: the whole) of the
input. -/
theorem C4_witness :
    ∃ r, AST.leaves (AST.mk ntS [(tA, ASTNode.Leaf tokA),
                                 (tB, ASTNode.Leaf tokB)]) ++ r
      = [tokA, tokB] :=
  C4_amended (LL1Parser.new g3) [tokA, tokB] 9
    (AST.mk ntS [(tA, ASTNode.Leaf tokA), (tB, ASTNode.Leaf tokB)]) rfl

/-- C5, counterexample: the claim says the parse loop terminates on every
input because each iteration either consumes a token or strictly shrinks
the total pending-symbol count.  On the parser constructed from the
grammar `S → S a; S → a` (whose prediction table maps `(S, a)` to the
left-recursive production `S → S a`), `ll1_parse` on `[a]` exhausts every
amount of fuel — the loop never returns. -/
theorem C5_counterexample :
    ll1Diverges (LL1Parser.new gLoop) [tokA] loopTop := by
  intro n
  exact loopRunNone n []

/-- C5, amended: the loop does not terminate on every input.  With the
prediction entry `(S, a) ↦ S → S a`, the loop on `[a]` runs out of any
amount of fuel, and the very first iteration refutes the claimed measure:
it consumes no token and strictly grows the total pending-symbol count
(an expansion by a production with two right-hand symbols replaces one
pending symbol by two). -/
theorem C5_amended :
    (∀ n, runF (LL1Parser.new gLoop) [tokA] n ⟨loopTop, [], 0⟩ = none) ∧
    step (LL1Parser.new gLoop) [tokA] ⟨loopTop, [], 0⟩ =
      .cont ⟨loopTop, [⟨ntS, [], [tA]⟩], 0⟩ ∧
    PState.pendingCount ⟨loopTop, [], 0⟩ <
      PState.pendingCount ⟨loopTop, [⟨ntS, [], [tA]⟩], 0⟩ := by
  refine ⟨fun n => loopRunNone n [], loopStep [], ?_⟩
  show 2 + 0 < 2 + 1
  omega

/-- C6, theorem: when the prediction-table lookup for the pending
nonterminal yields an `Epsilon` production, the iteration consumes no
input (same cursor), creates no tree node (same frame contents and same
suspended frames), and continues with the next pending symbol
(src/parser.rs:510-512). -/
theorem C6_theorem (p : LL1Parser) (tokens : List Token) (sym : GramSym)
    (elems : List (GramSym × ASTNode)) (s : GramSym) (ps : List GramSym)
    (rest : List Frame) (i : Nat) (prod : GramProd)
    (hterm : s.is_terminal = false)
    (hi : ¬ i > tokens.length - 1)
    (hpred : p.predict_prod s (getTok tokens i).to_pred_set_sym = some prod)
    (hrh : prod.rhstr = GramSymStr.Epsilon) :
    step p tokens ⟨⟨sym, elems, s :: ps⟩, rest, i⟩ =
      .cont ⟨⟨sym, elems, ps⟩, rest, i⟩ :=
  step_nt_eps p tokens sym elems s ps rest i prod hi hterm hpred hrh

/-- C6, witness: with the parser of `S → A b; A → ε` on input `[b]`, the
epsilon expansion of the pending `A` leaves the cursor, the tree and the
suspended frames unchanged and proceeds to the pending `b`. -/
theorem C6_witness :
    step (LL1Parser.new gE) [tokB] ⟨⟨ntS, [], [ntA, tB]⟩, [], 0⟩ =
      .cont ⟨⟨ntS, [], [tB]⟩, [], 0⟩ :=
  C6_theorem (LL1Parser.new gE) [tokB] ntS [] ntA [tB] [] 0
    ⟨ntA, GramSymStr.Epsilon⟩ rfl (by decide) rfl rfl

/-- C7, theorem: for every parser and every amount of fuel, parse of the
empty token sequence returns the "empty tokens" error immediately — it
needs no fuel at all, so it neither panics nor diverges
(src/parser.rs:369-371). -/
theorem C7_theorem (p : LL1Parser) (n : Nat) :
    parseF n p [] = some (POut.err ParseErr.emptyTokens) := rfl

/-- C8, theorem: for every source string and every offset equal to some
entry of the cumulative line-start table, the binary search takes the
"found" branch and `offset2srcloc` reports column 0 with the line equal to
the index of the matched entry (src/parser.rs:124-129). -/
theorem C8_theorem (s : List Char) (idx off : Nat)
    (h : (build_lines s)[idx]? = some off) :
    (SrcFileInfo.fromStr s).offset2srcloc off = some ⟨idx, 0⟩ := by
  have hb : bsearch (build_lines s) off = .found idx := by
    have h2 := bsearchAux_found_of_mem (build_lines s) off 0 idx
      (build_lines_pairwise s) h
    simpa [bsearch] using h2
  unfold SrcFileInfo.offset2srcloc SrcFileInfo.fromStr
  rw [hb]

/-- C8, witness: in the source `"a\nb"` the offset 2 is the line-start
entry at index 1, and it is reported as line 1, column 0. -/
theorem C8_witness :
    (SrcFileInfo.fromStr ['a', '\n', 'b']).offset2srcloc 2 = some ⟨1, 0⟩ :=
  C8_theorem ['a', '\n', 'b'] 1 2 (by decide)

/-- C10, theorem: for every input string, `build_lines` starts with 0 and
is strictly increasing; consequently `offset2srcloc` never panics at any
offset: the `isSome` conjunct says no modelled panic (`idx = 0` underflow,
out-of-bounds `lines[idx - 1]`, or column-subtraction underflow) is
reachable. -/
theorem C10_theorem (s : List Char) (offset : Nat) :
    (build_lines s).head? = some 0 ∧
    List.Pairwise (· < ·) (build_lines s) ∧
    ((SrcFileInfo.fromStr s).offset2srcloc offset).isSome = true := by
  refine ⟨build_lines_head s, build_lines_pairwise s, ?_⟩
  have hhead := build_lines_head s
  obtain ⟨tail, htail⟩ : ∃ tail, build_lines s = 0 :: tail := by
    cases hbl : build_lines s with
    | nil => rw [hbl] at hhead; cases hhead
    | cons a t =>
        rw [hbl] at hhead
        simp only [List.head?] at hhead
        injection hhead with hhead
        exact ⟨t, by rw [hhead]⟩
  unfold SrcFileInfo.offset2srcloc SrcFileInfo.fromStr
  cases hb : bsearch (build_lines s) offset with
  | found i => rfl
  | notFound idx =>
      obtain ⟨hk0, hrest⟩ := bsearchAux_notFound (build_lines s) offset 0 idx hb
      have hne0 : idx ≠ 0 := by
        intro h0
        subst h0
        rw [htail] at hb
        simp only [bsearch, bsearchAux] at hb
        by_cases ho : offset = 0
        · rw [if_pos ho] at hb; cases hb
        · rw [if_neg ho] at hb
          rw [if_neg (by omega)] at hb
          obtain ⟨hk1, _⟩ := bsearchAux_notFound tail offset 1 0 hb
          omega
      rcases hrest with h0 | ⟨v, hv, hvx⟩
      · exact absurd h0 hne0
      · dsimp only
        rw [if_neg hne0]
        have hv' : (build_lines s)[idx - 1]? = some v := by simpa using hv
        rw [hv']
        dsimp only
        rw [if_pos (Nat.le_of_lt hvx)]
        rfl

/-- C9, counterexample: the claim says that for every outcome of the root
lookup other than an `Epsilon`-rhs production, parse returns `Ok` or `Err`
without panicking.  On the parser of `S → S a; S → a`, the root lookup
yields the production `S → S a` — a `Str` right-hand side, i.e. one of the
claimed "other outcomes" — yet parse on `[a]` returns nothing for any
amount of fuel: the loop diverges instead of returning `Ok` or `Err`. -/
theorem C9_counterexample :
    (LL1Parser.new gLoop).gram.start_sym = some ntS ∧
    (LL1Parser.new gLoop).predict_prod ntS (getTok [tokA] 0).to_pred_set_sym
        = some prodSSa ∧
    prodSSa.rhstr = GramSymStr.Str [ntS, tA] ∧
    parseDiverges (LL1Parser.new gLoop) [tokA] := by
  refine ⟨rfl, rfl, rfl, ?_⟩
  intro n
  rw [parseF_gLoop n, loopRunNone n []]
  rfl

/-- C9, amended: given a nonempty input and an existing start symbol,
whenever parse returns an outcome, that outcome is the `unreachable!()`
panic (src/parser.rs:404) exactly when the root prediction lookup yields a
production whose right-hand side is `Epsilon`; for every other outcome of
that lookup a returned outcome is `Ok` or `Err` — but for a `Str`
production parse may also fail to return at all (see the
counterexample). -/
theorem C9_amended (p : LL1Parser) (tokens : List Token) (s0 : GramSym)
    (n : Nat) (out : POut)
    (hne : tokens ≠ [])
    (hstart : p.gram.start_sym = some s0)
    (hrun : parseF n p tokens = some out) :
    (out = POut.panic ↔
      ∃ prod, p.predict_prod s0 (getTok tokens 0).to_pred_set_sym = some prod ∧
        prod.rhstr = GramSymStr.Epsilon) := by
  cases hpred : p.predict_prod s0 (getTok tokens 0).to_pred_set_sym with
  | none =>
      simp only [parseF, if_neg hne, hstart, hpred] at hrun
      injection hrun with hrun
      subst hrun
      constructor
      · intro hcontra
        exact POut.noConfusion hcontra
      · rintro ⟨prod, hp, _⟩
        exact Option.noConfusion hp
  | some prod =>
      cases hrh : prod.rhstr with
      | Str v =>
          simp only [parseF, if_neg hne, hstart, hpred, hrh] at hrun
          constructor
          · intro hpan
            subst hpan
            obtain ⟨r, _, hfr⟩ := Option.map_eq_some'.mp hrun
            cases r with
            | ok t => exact POut.noConfusion hfr
            | error e => exact POut.noConfusion hfr
          · rintro ⟨prod', hp', hrh'⟩
            injection hp' with hp'
            subst hp'
            rw [hrh] at hrh'
            exact GramSymStr.noConfusion hrh'
      | Epsilon =>
          simp only [parseF, if_neg hne, hstart, hpred, hrh] at hrun
          injection hrun with hrun
          subst hrun
          constructor
          · intro _
            exact ⟨prod, rfl, hrh⟩
          · intro _
            rfl

/-- C9, witness: on the parser of `S → ε; T → S b`, the root lookup for
`(S, b)` yields the epsilon production, and parse of `[b]` indeed returns
the panic outcome. -/
theorem C9_witness :
    (POut.panic = POut.panic ↔
      ∃ prod, (LL1Parser.new gEpsStart).predict_prod ntS
          (getTok [tokB] 0).to_pred_set_sym = some prod ∧
        prod.rhstr = GramSymStr.Epsilon) :=
  C9_amended (LL1Parser.new gEpsStart) [tokB] ntS 1 POut.panic
    (by decide) rfl rfl
